import Mathlib

/-!
Shallow embedding of the agent shared-folder registry and exposure resolver
(`src/backend/db/shared_folders.py`, class `SharedFolderOperations`).

The SQLite table `agent_shared_folder_config` is modelled as a list of rows
(`DB`); the `ORDER BY agent_name` clause of the SQL queries is modelled by
sorting on the lexicographic string order (`sortNames`); the permission
collaborator (`self._permission_ops.is_permitted`) is a function parameter.
Timestamps (ISO strings produced by `datetime.utcnow().isoformat()`) are
modelled as natural numbers; the call time `now` is passed explicitly.
A variant of each resolver query over a permission predicate that may fail
(`Except`) models the Python exception behaviour of an unguarded
`is_permitted` call.
-/

/-- A row of the `agent_shared_folder_config` table / the `SharedFolderConfig`
model built by `_row_to_config`. -/
structure SharedFolderConfig where
  agent_name : String
  expose_enabled : Bool
  consume_enabled : Bool
  created_at : Nat
  updated_at : Nat
deriving Repr, DecidableEq

/-- The registry state: the rows of the `agent_shared_folder_config` table. -/
structure DB where
  rows : List SharedFolderConfig
deriving Repr, DecidableEq

/-- Boolean lexicographic comparison of character lists, the order SQLite
uses for `ORDER BY agent_name` on the TEXT column. -/
def charListLe : List Char → List Char → Bool
  | [], _ => true
  | _ :: _, [] => false
  | a :: as, b :: bs =>
      if a < b then true else if b < a then false else charListLe as bs

/-- Boolean lexicographic comparison on agent names. -/
def nameLe (a b : String) : Bool := charListLe a.data b.data

/-- Sorting a list of agent names lexicographically, modelling the SQL
`ORDER BY agent_name` clause.  (A sorted permutation of a list of strings
is unique, so any correct sorting algorithm models `ORDER BY` exactly.) -/
def sortNames (l : List String) : List String :=
  List.insertionSort (fun a b => nameLe a b = true) l

/-- `get_shared_folder_config`: `SELECT ... WHERE agent_name = ?` then
`fetchone`; returns `None` when no row exists. -/
def get_shared_folder_config (db : DB) (agent_name : String) :
    Option SharedFolderConfig :=
  db.rows.find? (fun r => r.agent_name == agent_name)

/-- `upsert_shared_folder_config`: reads the existing row; if present,
each provided (`some`) field overwrites the stored value, unspecified
(`none`) fields keep the stored value, `updated_at` is set to `now` and
`created_at` is kept; if absent, a new row is inserted with unspecified
fields defaulting to `False` and both timestamps set to `now`.  Returns the
new registry state together with the `SharedFolderConfig` the Python
function returns. -/
def upsert_shared_folder_config (db : DB) (agent_name : String)
    (expose_enabled : Option Bool) (consume_enabled : Option Bool)
    (now : Nat) : DB × SharedFolderConfig :=
  match db.rows.find? (fun r => r.agent_name == agent_name) with
  | some existing =>
      let new_expose := expose_enabled.getD existing.expose_enabled
      let new_consume := consume_enabled.getD existing.consume_enabled
      let rows := db.rows.map (fun r =>
        if r.agent_name == agent_name then
          { r with
              expose_enabled := new_expose
              consume_enabled := new_consume
              updated_at := now }
        else r)
      (⟨rows⟩,
        { agent_name := agent_name
          expose_enabled := new_expose
          consume_enabled := new_consume
          created_at := existing.created_at
          updated_at := now })
  | none =>
      let new_expose := expose_enabled.getD false
      let new_consume := consume_enabled.getD false
      let cfg : SharedFolderConfig :=
        { agent_name := agent_name
          expose_enabled := new_expose
          consume_enabled := new_consume
          created_at := now
          updated_at := now }
      (⟨db.rows ++ [cfg]⟩, cfg)

/-- `delete_shared_folder_config`: `DELETE ... WHERE agent_name = ?`;
returns the new state together with `cursor.rowcount > 0`. -/
def delete_shared_folder_config (db : DB) (agent_name : String) :
    DB × Bool :=
  let rowcount := db.rows.countP (fun r => r.agent_name == agent_name)
  (⟨db.rows.filter (fun r => !(r.agent_name == agent_name))⟩,
    decide (0 < rowcount))

/-- `get_agents_exposing_folders`:
`SELECT agent_name ... WHERE expose_enabled = 1 ORDER BY agent_name`. -/
def get_agents_exposing_folders (db : DB) : List String :=
  sortNames ((db.rows.filter (fun r => r.expose_enabled)).map
    (fun r => r.agent_name))

/-- `get_available_shared_folders`: iterates over
`get_agents_exposing_folders`, skips the requesting agent, and appends each
remaining candidate for which `is_permitted(requesting_agent, agent)`
holds. -/
def get_available_shared_folders (db : DB)
    (is_permitted : String → String → Bool)
    (requesting_agent : String) : List String :=
  let exposing_agents := get_agents_exposing_folders db
  exposing_agents.foldl (fun available agent =>
    if agent != requesting_agent then
      if is_permitted requesting_agent agent then available ++ [agent]
      else available
    else available) []

/-- The SQL query of `get_consuming_agents`:
`SELECT agent_name ... WHERE consume_enabled = 1 AND agent_name != ? ORDER BY
agent_name`. -/
def consuming_candidates (db : DB) (source_agent : String) : List String :=
  sortNames ((db.rows.filter
      (fun r => r.consume_enabled && r.agent_name != source_agent)).map
    (fun r => r.agent_name))

/-- `get_consuming_agents`: runs the SQL query `consuming_candidates`, then
keeps each candidate for which `is_permitted(agent, source_agent)` holds. -/
def get_consuming_agents (db : DB)
    (is_permitted : String → String → Bool)
    (source_agent : String) : List String :=
  let consuming_agents := consuming_candidates db source_agent
  consuming_agents.foldl (fun available agent =>
    if is_permitted agent source_agent then available ++ [agent]
    else available) []

/-- `get_available_shared_folders` over a permission collaborator that may
raise: the Python loop has no exception handler around
`self._permission_ops.is_permitted`, so a raised exception propagates out of
the whole call.  `foldlM` over `Except` models exactly this propagation. -/
def get_available_shared_foldersE (db : DB)
    (is_permitted : String → String → Except String Bool)
    (requesting_agent : String) : Except String (List String) :=
  let exposing_agents := get_agents_exposing_folders db
  exposing_agents.foldlM (fun available agent =>
    if agent != requesting_agent then do
      let ok ← is_permitted requesting_agent agent
      pure (if ok then available ++ [agent] else available)
    else pure available) []

/-- `get_consuming_agents` over a permission collaborator that may raise;
as in the Python source the lookup is unguarded, so a failure propagates
out of the whole call. -/
def get_consuming_agentsE (db : DB)
    (is_permitted : String → String → Except String Bool)
    (source_agent : String) : Except String (List String) :=
  let consuming_agents := consuming_candidates db source_agent
  consuming_agents.foldlM (fun available agent => do
    let ok ← is_permitted agent source_agent
    pure (if ok then available ++ [agent] else available)) []

/-- `get_shared_volume_name`: the f-string `agent-{agent_name}-shared`. -/
def get_shared_volume_name (agent_name : String) : String :=
  "agent-" ++ agent_name ++ "-shared"

/-- `get_shared_mount_path`: the f-string
`/home/developer/shared-in/{source_agent}`. -/
def get_shared_mount_path (source_agent : String) : String :=
  "/home/developer/shared-in/" ++ source_agent

/-!
## Order lemmas: `nameLe` agrees with the lexicographic order on `String`
-/

theorem charListLe_iff : ∀ as bs : List Char,
    charListLe as bs = true ↔ ¬ List.Lex (· < ·) bs as
  | [], [] => by
      simp only [charListLe]
      constructor
      · intro _ h; cases h
      · intro _; trivial
  | [], _ :: _ => by
      simp only [charListLe]
      constructor
      · intro _ h; cases h
      · intro _; trivial
  | a :: as, [] => by
      simp only [charListLe]
      constructor
      · intro h; exact Bool.noConfusion h
      · intro h; exact absurd List.Lex.nil h
  | a :: as, b :: bs => by
      simp only [charListLe]
      rcases lt_trichotomy a b with hab | heq | hba
      · rw [if_pos hab]
        simp only [true_iff]
        intro h
        cases h with
        | rel h2 => exact absurd (lt_trans h2 hab) (lt_irrefl b)
        | cons h2 => exact absurd hab (lt_irrefl _)
      · subst heq
        rw [if_neg (lt_irrefl a), if_neg (lt_irrefl a)]
        rw [charListLe_iff as bs]
        constructor
        · intro h hlex
          cases hlex with
          | rel h2 => exact absurd h2 (lt_irrefl a)
          | cons h2 => exact h h2
        · intro h hlex
          exact h (List.Lex.cons hlex)
      · rw [if_neg (lt_asymm hba), if_pos hba]
        constructor
        · intro h; exact Bool.noConfusion h
        · intro h; exact absurd (List.Lex.rel hba) h

theorem nameLe_iff (a b : String) : nameLe a b = true ↔ a ≤ b := by
  rw [String.le_iff_toList_le, ← not_lt]
  exact charListLe_iff a.data b.data

instance : IsTotal String (fun a b => nameLe a b = true) :=
  ⟨fun a b => by
    rcases le_total a b with h | h
    · exact Or.inl ((nameLe_iff a b).mpr h)
    · exact Or.inr ((nameLe_iff b a).mpr h)⟩

instance : IsTrans String (fun a b => nameLe a b = true) :=
  ⟨fun a b c hab hbc =>
    (nameLe_iff a c).mpr
      (le_trans ((nameLe_iff a b).mp hab) ((nameLe_iff b c).mp hbc))⟩

theorem sortNames_sorted (l : List String) : (sortNames l).Sorted (· ≤ ·) :=
  (List.sorted_insertionSort _ l).imp (fun h => (nameLe_iff _ _).mp h)

theorem mem_sortNames {a : String} {l : List String} :
    a ∈ sortNames l ↔ a ∈ l :=
  List.mem_insertionSort _

/-!
## List helper lemmas for the resolver loops
-/

theorem foldl_filter_append (p : String → Bool) :
    ∀ (l acc : List String),
      l.foldl (fun available a =>
        if p a then available ++ [a] else available) acc
        = acc ++ l.filter p
  | [], acc => by simp
  | a :: l, acc => by
      rw [List.foldl_cons, List.filter_cons]
      by_cases hp : p a = true
      · rw [if_pos hp, if_pos hp, foldl_filter_append p l (acc ++ [a])]
        simp
      · rw [if_neg hp, if_neg hp, foldl_filter_append p l acc]

theorem get_available_eq_filter (db : DB)
    (is_permitted : String → String → Bool) (requesting_agent : String) :
    get_available_shared_folders db is_permitted requesting_agent
      = (get_agents_exposing_folders db).filter
          (fun a => a != requesting_agent && is_permitted requesting_agent a) := by
  unfold get_available_shared_folders
  have hstep : (fun (available : List String) (agent : String) =>
      if agent != requesting_agent then
        if is_permitted requesting_agent agent then available ++ [agent]
        else available
      else available)
      = fun available agent =>
          if (agent != requesting_agent &&
              is_permitted requesting_agent agent) then available ++ [agent]
          else available := by
    funext acc a
    by_cases h1 : (a != requesting_agent) = true
    · by_cases h2 : is_permitted requesting_agent a = true
      · simp [h1, h2]
      · simp [h1, h2]
    · simp [h1]
  rw [hstep, foldl_filter_append]
  simp

theorem get_consuming_eq_filter (db : DB)
    (is_permitted : String → String → Bool) (source_agent : String) :
    get_consuming_agents db is_permitted source_agent
      = (consuming_candidates db source_agent).filter
          (fun a => is_permitted a source_agent) := by
  unfold get_consuming_agents
  rw [foldl_filter_append]
  simp

theorem mem_get_agents_exposing_folders (db : DB) (a : String) :
    a ∈ get_agents_exposing_folders db ↔
      ∃ c ∈ db.rows, c.agent_name = a ∧ c.expose_enabled = true := by
  unfold get_agents_exposing_folders
  rw [mem_sortNames]
  simp only [List.mem_map, List.mem_filter]
  constructor
  · rintro ⟨r, ⟨hr, he⟩, hn⟩
    exact ⟨r, hr, hn, he⟩
  · rintro ⟨r, hr, hn, he⟩
    exact ⟨r, ⟨hr, he⟩, hn⟩

theorem mem_consuming_candidates (db : DB) (source_agent : String)
    (c : String) :
    c ∈ consuming_candidates db source_agent ↔
      (∃ r ∈ db.rows, r.agent_name = c ∧ r.consume_enabled = true) ∧
        c ≠ source_agent := by
  unfold consuming_candidates
  rw [mem_sortNames]
  simp only [List.mem_map, List.mem_filter, Bool.and_eq_true, bne_iff_ne]
  constructor
  · rintro ⟨r, ⟨hr, hc, hs⟩, hn⟩
    exact ⟨⟨r, hr, hn, hc⟩, hn ▸ hs⟩
  · rintro ⟨⟨r, hr, hn, hc⟩, hs⟩
    exact ⟨r, ⟨hr, hc, hn ▸ hs⟩, hn⟩

theorem sorted_consuming_candidates (db : DB) (source_agent : String) :
    (consuming_candidates db source_agent).Sorted (· ≤ ·) :=
  sortNames_sorted _

/-!
## Registry helper lemmas: `find?` after an update or an insert
-/

theorem find?_map_update (A : String)
    (f : SharedFolderConfig → SharedFolderConfig)
    (hf : ∀ r, (f r).agent_name = r.agent_name) :
    ∀ rows : List SharedFolderConfig,
      (rows.map (fun r => if r.agent_name == A then f r else r)).find?
          (fun r => r.agent_name == A)
        = (rows.find? (fun r => r.agent_name == A)).map f
  | [] => by simp
  | r :: rows => by
      by_cases hr : (r.agent_name == A) = true
      · rw [List.map_cons, if_pos hr]
        rw [List.find?_cons_of_pos (p := fun s : SharedFolderConfig => s.agent_name == A) _
          (by show ((f r).agent_name == A) = true; rw [hf r]; exact hr)]
        rw [List.find?_cons_of_pos (p := fun s : SharedFolderConfig => s.agent_name == A) _ hr]
        simp
      · rw [List.map_cons, if_neg hr]
        rw [List.find?_cons_of_neg (p := fun s : SharedFolderConfig => s.agent_name == A) _ hr]
        rw [List.find?_cons_of_neg (p := fun s : SharedFolderConfig => s.agent_name == A) _ hr]
        exact find?_map_update A f hf rows

theorem get_after_upsert (db : DB) (A : String)
    (e c : Option Bool) (now : Nat) :
    get_shared_folder_config (upsert_shared_folder_config db A e c now).1 A
      = some (upsert_shared_folder_config db A e c now).2 := by
  unfold get_shared_folder_config upsert_shared_folder_config
  cases hfind : db.rows.find? (fun r => r.agent_name == A) with
  | none =>
      simp only
      rw [List.find?_append, hfind, Option.none_or]
      rw [List.find?_cons_of_pos (p := fun s : SharedFolderConfig => s.agent_name == A) _
        (beq_self_eq_true A)]
  | some ex =>
      simp only
      rw [find?_map_update A
        (fun r =>
          { r with
              expose_enabled := e.getD ex.expose_enabled
              consume_enabled := c.getD ex.consume_enabled
              updated_at := now })
        (fun r => rfl) db.rows]
      rw [hfind]
      have h1 := List.find?_some hfind
      have hname : ex.agent_name = A := eq_of_beq h1
      cases ex with
      | mk n ee ce ca ua =>
          simp only at hname
          subst hname
          rfl

/-!
## Helper lemmas for the failing-permission-collaborator variants
-/

/-- The common loop body of the two resolver queries over a fallible
permission lookup `g`: consult the lookup, then append the candidate when it
answered `true`. -/
def permStepE (g : String → Except String Bool)
    (acc : List String) (a : String) : Except String (List String) :=
  g a >>= fun ok => pure (if ok then acc ++ [a] else acc)

theorem permStepE_foldlM_ok (g : String → Except String Bool)
    (p : String → Bool) (hagree : ∀ a, g a = Except.ok (p a)) :
    ∀ (l acc : List String),
      l.foldlM (permStepE g) acc
        = Except.ok (l.foldl
            (fun acc2 a => if p a then acc2 ++ [a] else acc2) acc)
  | [], acc => by rw [List.foldlM_nil, List.foldl_nil]; rfl
  | a :: l, acc => by
      have hstep : permStepE g acc a
          = Except.ok (if p a then acc ++ [a] else acc) := by
        unfold permStepE
        rw [hagree a]
        rfl
      rw [List.foldlM_cons, hstep, List.foldl_cons]
      show l.foldlM (permStepE g) (if p a then acc ++ [a] else acc) = _
      exact permStepE_foldlM_ok g p hagree l _

theorem permStepE_foldlM_error (g : String → Except String Bool) :
    ∀ (l acc : List String) (b e : String),
      b ∈ l → g b = Except.error e →
      ∃ e2, l.foldlM (permStepE g) acc = Except.error e2
  | [], acc, b, e => by
      intro hmem _
      cases hmem
  | a :: l, acc, b, e => by
      intro hmem hfail
      rw [List.foldlM_cons]
      cases hp : g a with
      | error e3 =>
          refine ⟨e3, ?_⟩
          have hstep : permStepE g acc a = Except.error e3 := by
            unfold permStepE
            rw [hp]
            rfl
          rw [hstep]
          rfl
      | ok pb =>
          have hstep : permStepE g acc a
              = Except.ok (if pb then acc ++ [a] else acc) := by
            unfold permStepE
            rw [hp]
            rfl
          rcases List.mem_cons.mp hmem with rfl | hmem2
          · rw [hp] at hfail
            exact Except.noConfusion hfail
          · obtain ⟨e2, h2⟩ := permStepE_foldlM_error g l
              (if pb then acc ++ [a] else acc) b e hmem2 hfail
            refine ⟨e2, ?_⟩
            rw [hstep]
            show l.foldlM (permStepE g) (if pb then acc ++ [a] else acc)
              = Except.error e2
            exact h2

theorem foldlME_skip (cond : String → Bool)
    (step : List String → String → Except String (List String)) :
    ∀ (l acc : List String),
      l.foldlM (fun acc2 a => if cond a then step acc2 a else pure acc2) acc
        = (l.filter cond).foldlM step acc
  | [], acc => rfl
  | a :: l, acc => by
      rw [List.foldlM_cons, List.filter_cons]
      by_cases hc : cond a = true
      · rw [if_pos hc, if_pos hc, List.foldlM_cons]
        exact bind_congr (fun acc2 => foldlME_skip cond step l acc2)
      · rw [if_neg hc, if_neg hc]
        show l.foldlM _ acc = _
        exact foldlME_skip cond step l acc

theorem get_availableE_eq (db : DB)
    (permE : String → String → Except String Bool) (A : String) :
    get_available_shared_foldersE db permE A
      = ((get_agents_exposing_folders db).filter (fun a => a != A)).foldlM
          (permStepE (fun a => permE A a)) [] := by
  show (get_agents_exposing_folders db).foldlM
      (fun acc2 a =>
        if a != A then permStepE (fun a2 => permE A a2) acc2 a
        else pure acc2) []
    = _
  exact foldlME_skip _ _ _ _

theorem get_consumingE_eq (db : DB)
    (permE : String → String → Except String Bool) (S : String) :
    get_consuming_agentsE db permE S
      = (consuming_candidates db S).foldlM
          (permStepE (fun a => permE a S)) [] := rfl

/-!
## Concrete registry states for witnesses and counterexamples
(the example scenario of the design spec: agents alpha, beta, gamma)
-/

def rowAlpha : SharedFolderConfig := ⟨"alpha", true, false, 1, 1⟩

def rowBeta : SharedFolderConfig := ⟨"beta", false, true, 2, 2⟩

def rowGamma : SharedFolderConfig := ⟨"gamma", true, true, 3, 3⟩

def exampleDB : DB := ⟨[rowAlpha, rowBeta, rowGamma]⟩

/-- The permission edges of the example scenario:
beta→alpha and gamma→alpha are permitted, everything else is not. -/
def examplePerm : String → String → Bool := fun caller target =>
  (caller == "beta" && target == "alpha") ||
    (caller == "gamma" && target == "alpha")

/-- A registry and a failing permission collaborator: the lookup against
target `alpha` raises, every other lookup succeeds with `true`. -/
def failDB : DB := ⟨[⟨"alpha", true, false, 0, 0⟩, ⟨"gamma", true, false, 0, 0⟩]⟩

def failPermE : String → String → Except String Bool := fun _ target =>
  if target == "alpha" then Except.error "permission lookup failed"
  else Except.ok true

/-!
## The claims
-/

/-- C1: for every requesting agent `A` and registry state,
`get_available_shared_folders A` returns exactly the agents `b` with
`expose_enabled = true`, `b ≠ A` and `is_permitted A b`, as a sublist of the
lexicographically sorted `get_agents_exposing_folders` output (filtering
never reorders), and `A` itself never appears in the result. -/
theorem C1_available_mounts_correct (db : DB)
    (is_permitted : String → String → Bool) (A : String) :
    (∀ b, b ∈ get_available_shared_folders db is_permitted A ↔
      ((∃ r ∈ db.rows, r.agent_name = b ∧ r.expose_enabled = true) ∧
        b ≠ A ∧ is_permitted A b = true)) ∧
    (get_available_shared_folders db is_permitted A).Sublist
      (get_agents_exposing_folders db) ∧
    A ∉ get_available_shared_folders db is_permitted A := by
  refine ⟨?_, ?_, ?_⟩
  · intro b
    rw [get_available_eq_filter, List.mem_filter,
      mem_get_agents_exposing_folders]
    simp [Bool.and_eq_true, bne_iff_ne, and_assoc]
  · rw [get_available_eq_filter]
    exact List.filter_sublist _
  · rw [get_available_eq_filter]
    intro hmem
    have h2 := (List.mem_filter.mp hmem).2
    simp [bne_iff_ne] at h2

/-- Witness for C1 at the example scenario: `gamma` never sees itself in its
own available-mounts list. -/
theorem C1_witness :
    "gamma" ∉ get_available_shared_folders exampleDB examplePerm "gamma" :=
  (C1_available_mounts_correct exampleDB examplePerm "gamma").2.2

/-- C2: for every source agent `S`, `get_consuming_agents S` returns exactly
the agents `c` with `consume_enabled = true`, `c ≠ S` and
`is_permitted c S` (candidate as caller, `S` as target — the reverse
argument order of `get_available_shared_folders`), in lexicographic order. -/
theorem C2_consumers_of_correct (db : DB)
    (is_permitted : String → String → Bool) (S : String) :
    (∀ c, c ∈ get_consuming_agents db is_permitted S ↔
      ((∃ r ∈ db.rows, r.agent_name = c ∧ r.consume_enabled = true) ∧
        c ≠ S ∧ is_permitted c S = true)) ∧
    (get_consuming_agents db is_permitted S).Sorted (· ≤ ·) := by
  constructor
  · intro c
    rw [get_consuming_eq_filter, List.mem_filter, mem_consuming_candidates]
    tauto
  · rw [get_consuming_eq_filter]
    exact List.Pairwise.sublist (List.filter_sublist _)
      (sorted_consuming_candidates db S)

/-- Witness for C2 at the example scenario: `gamma` consumes from `alpha`
(consume-enabled, distinct, and permitted with gamma as caller). -/
theorem C2_witness :
    "gamma" ∈ get_consuming_agents exampleDB examplePerm "alpha" :=
  ((C2_consumers_of_correct exampleDB examplePerm "alpha").1 "gamma").mpr
    ⟨⟨rowGamma, by decide, rfl, rfl⟩, by decide, rfl⟩

/-- C7: `get_agents_exposing_folders` returns exactly the agent names with
`expose_enabled = true`, lexicographically sorted, and two calls on the same
registry state (no intervening writes) return identical ordered output. -/
theorem C7_list_exposing_agents_correct (db : DB) :
    (∀ a, a ∈ get_agents_exposing_folders db ↔
      ∃ r ∈ db.rows, r.agent_name = a ∧ r.expose_enabled = true) ∧
    (get_agents_exposing_folders db).Sorted (· ≤ ·) ∧
    get_agents_exposing_folders db = get_agents_exposing_folders db :=
  ⟨fun a => mem_get_agents_exposing_folders db a,
    sortNames_sorted _, rfl⟩

/-- Witness for C7 at the example scenario: `alpha` is listed as exposing. -/
theorem C7_witness : "alpha" ∈ get_agents_exposing_folders exampleDB :=
  ((C7_list_exposing_agents_correct exampleDB).1 "alpha").mpr
    ⟨rowAlpha, by decide, rfl, rfl⟩

/-- C5: `delete_shared_folder_config A` returns `true` exactly when a config
row for `A` existed (and was removed), and a second delete directly after a
first one always returns `false` — the function is total, it never fails on
an absent row. -/
theorem C5_delete_idempotent (db : DB) (A : String) :
    ((delete_shared_folder_config db A).2 = true ↔
      (get_shared_folder_config db A).isSome = true) ∧
    (delete_shared_folder_config
      (delete_shared_folder_config db A).1 A).2 = false := by
  constructor
  · unfold delete_shared_folder_config get_shared_folder_config
    simp only [decide_eq_true_eq, List.find?_isSome]
    exact List.countP_pos_iff
  · have hz : ((db.rows.filter
          (fun r => !(r.agent_name == A))).countP
        (fun r => r.agent_name == A)) = 0 := by
      rw [List.countP_eq_zero]
      intro r hr
      have h2 := (List.mem_filter.mp hr).2
      simp only [Bool.not_eq_eq_eq_not, Bool.not_true] at h2
      simp [h2]
    unfold delete_shared_folder_config
    simp [hz]

/-- Witness for C5 at the example scenario: deleting beta's config succeeds
once, then returns false. -/
theorem C5_witness :
    (delete_shared_folder_config exampleDB "beta").2 = true ∧
    (delete_shared_folder_config
      (delete_shared_folder_config exampleDB "beta").1 "beta").2 = false :=
  ⟨((C5_delete_idempotent exampleDB "beta").1).mpr (by decide),
    (C5_delete_idempotent exampleDB "beta").2⟩

/-- C6: the two namers produce exactly the documented strings, and both are
injective: distinct agent names yield distinct volume names and distinct
mount paths. -/
theorem C6_naming_injective (X Y : String) (h : X ≠ Y) :
    get_shared_volume_name X = "agent-" ++ X ++ "-shared" ∧
    get_shared_mount_path X = "/home/developer/shared-in/" ++ X ∧
    get_shared_volume_name X ≠ get_shared_volume_name Y ∧
    get_shared_mount_path X ≠ get_shared_mount_path Y := by
  refine ⟨rfl, rfl, ?_, ?_⟩
  · intro hEq
    apply h
    unfold get_shared_volume_name at hEq
    have hd := congrArg String.data hEq
    simp only [String.data_append] at hd
    exact String.ext (List.append_cancel_left (List.append_cancel_right hd))
  · intro hEq
    apply h
    unfold get_shared_mount_path at hEq
    have hd := congrArg String.data hEq
    simp only [String.data_append] at hd
    exact String.ext (List.append_cancel_left hd)

/-- Witness for C6 at concrete distinct names alpha and beta. -/
theorem C6_witness :
    ("alpha" : String) ≠ "beta" ∧
    (get_shared_volume_name "alpha" = "agent-" ++ "alpha" ++ "-shared" ∧
      get_shared_mount_path "alpha"
          = "/home/developer/shared-in/" ++ "alpha" ∧
      get_shared_volume_name "alpha" ≠ get_shared_volume_name "beta" ∧
      get_shared_mount_path "alpha" ≠ get_shared_mount_path "beta") :=
  ⟨by decide, C6_naming_injective "alpha" "beta" (by decide)⟩

/-- C9: immediately after an upsert, reading the config back returns a row
(not `none`) whose `expose_enabled` and `consume_enabled` equal those of the
config value the upsert returned. -/
theorem C9_upsert_get_roundtrip (db : DB) (A : String)
    (e c : Option Bool) (now : Nat) :
    ∃ cfg,
      get_shared_folder_config
          (upsert_shared_folder_config db A e c now).1 A = some cfg ∧
      cfg.expose_enabled
          = (upsert_shared_folder_config db A e c now).2.expose_enabled ∧
      cfg.consume_enabled
          = (upsert_shared_folder_config db A e c now).2.consume_enabled :=
  ⟨_, get_after_upsert db A e c now, rfl, rfl⟩

/-- Witness for C9: the round trip at a concrete fresh agent. -/
theorem C9_witness :
    ∃ cfg,
      get_shared_folder_config
          (upsert_shared_folder_config exampleDB "delta"
            (some true) none 7).1 "delta" = some cfg ∧
      cfg.expose_enabled
          = (upsert_shared_folder_config exampleDB "delta"
              (some true) none 7).2.expose_enabled ∧
      cfg.consume_enabled
          = (upsert_shared_folder_config exampleDB "delta"
              (some true) none 7).2.consume_enabled :=
  C9_upsert_get_roundtrip exampleDB "delta" (some true) none 7

/-- C10: the resolver never consults the permission predicate with caller
equal to target — two predicates agreeing off the diagonal yield identical
results for both queries, for every requesting and source agent. -/
theorem C10_no_self_permission_consulted (db : DB)
    (p1 p2 : String → String → Bool)
    (h : ∀ x y, x ≠ y → p1 x y = p2 x y) (A S : String) :
    get_available_shared_folders db p1 A
        = get_available_shared_folders db p2 A ∧
    get_consuming_agents db p1 S = get_consuming_agents db p2 S := by
  constructor
  · rw [get_available_eq_filter, get_available_eq_filter]
    apply List.filter_congr
    intro a _
    by_cases ha : a = A
    · subst ha
      simp
    · have hp := h A a (fun hAa => ha hAa.symm)
      simp [bne_iff_ne, ha, hp]
  · rw [get_consuming_eq_filter, get_consuming_eq_filter]
    apply List.filter_congr
    intro a hmem
    exact h a S ((mem_consuming_candidates db S a).mp hmem).2

/-- Witness for C10: the all-allow predicate and the allow-everything-except
oneself predicate differ exactly on the diagonal, yet both resolver queries
agree on them at the example registry. -/
theorem C10_witness :
    get_available_shared_folders exampleDB (fun _ _ => true) "beta"
        = get_available_shared_folders exampleDB (fun x y => x != y) "beta" ∧
    get_consuming_agents exampleDB (fun _ _ => true) "alpha"
        = get_consuming_agents exampleDB (fun x y => x != y) "alpha" :=
  C10_no_self_permission_consulted exampleDB
    (fun _ _ => true) (fun x y => x != y)
    (fun _ _ hxy => (bne_iff_ne.mpr hxy).symm) "beta" "alpha"

theorem upsert_existing (db : DB) (A : String) (e c : Option Bool)
    (now : Nat) (ex : SharedFolderConfig)
    (h : db.rows.find? (fun r => r.agent_name == A) = some ex) :
    (upsert_shared_folder_config db A e c now).2
      = { agent_name := A
          expose_enabled := e.getD ex.expose_enabled
          consume_enabled := c.getD ex.consume_enabled
          created_at := ex.created_at
          updated_at := now } := by
  unfold upsert_shared_folder_config
  rw [h]

theorem upsert_new (db : DB) (A : String) (e c : Option Bool) (now : Nat)
    (h : db.rows.find? (fun r => r.agent_name == A) = none) :
    (upsert_shared_folder_config db A e c now).2
      = { agent_name := A
          expose_enabled := e.getD false
          consume_enabled := c.getD false
          created_at := now
          updated_at := now } := by
  unfold upsert_shared_folder_config
  rw [h]

/-- C3: the upsert partial-update law — on a missing row each unspecified
field defaults to `false`; on an existing row each provided field overwrites
and each unspecified field keeps its prior value; in particular
`upsert(A, expose=true)` then `upsert(A, consume=true)` leaves a persisted
config with both flags `true`. -/
theorem C3_upsert_partial_update (db : DB) (A : String)
    (e c : Option Bool) (now now2 : Nat) :
    (get_shared_folder_config db A = none →
      (upsert_shared_folder_config db A e c now).2.expose_enabled
          = e.getD false ∧
      (upsert_shared_folder_config db A e c now).2.consume_enabled
          = c.getD false) ∧
    (∀ ex, get_shared_folder_config db A = some ex →
      (upsert_shared_folder_config db A e c now).2.expose_enabled
          = e.getD ex.expose_enabled ∧
      (upsert_shared_folder_config db A e c now).2.consume_enabled
          = c.getD ex.consume_enabled) ∧
    (∃ cfg,
      get_shared_folder_config
          (upsert_shared_folder_config
            (upsert_shared_folder_config db A (some true) none now).1
            A none (some true) now2).1 A = some cfg ∧
      cfg.expose_enabled = true ∧ cfg.consume_enabled = true) := by
  refine ⟨?_, ?_, ?_⟩
  · intro h
    unfold get_shared_folder_config at h
    rw [upsert_new db A e c now h]
    exact ⟨rfl, rfl⟩
  · intro ex h
    unfold get_shared_folder_config at h
    rw [upsert_existing db A e c now ex h]
    exact ⟨rfl, rfl⟩
  · have he1 : (upsert_shared_folder_config db A
        (some true) none now).2.expose_enabled = true := by
      unfold upsert_shared_folder_config
      cases hf : db.rows.find? (fun r => r.agent_name == A) <;> rfl
    have hfind2 : (upsert_shared_folder_config db A
          (some true) none now).1.rows.find?
          (fun r => r.agent_name == A)
        = some (upsert_shared_folder_config db A (some true) none now).2 :=
      get_after_upsert db A (some true) none now
    have h2 := upsert_existing _ A none (some true) now2 _ hfind2
    refine ⟨_, get_after_upsert _ A none (some true) now2, ?_, ?_⟩
    · rw [h2]
      exact he1
    · rw [h2]
      rfl

/-- Witness for C3 at a fresh agent in the example registry. -/
theorem C3_witness :
    (get_shared_folder_config exampleDB "delta" = none →
      (upsert_shared_folder_config exampleDB "delta"
          (some true) none 7).2.expose_enabled = (some true).getD false ∧
      (upsert_shared_folder_config exampleDB "delta"
          (some true) none 7).2.consume_enabled
          = (none : Option Bool).getD false) ∧
    (∃ cfg,
      get_shared_folder_config
          (upsert_shared_folder_config
            (upsert_shared_folder_config exampleDB "delta"
              (some true) none 7).1
            "delta" none (some true) 8).1 "delta" = some cfg ∧
      cfg.expose_enabled = true ∧ cfg.consume_enabled = true) :=
  ⟨(C3_upsert_partial_update exampleDB "delta" (some true) none 7 8).1,
    (C3_upsert_partial_update exampleDB "delta" (some true) none 7 8).2.2⟩

/-- C8: upserting an agent whose config row exists keeps `created_at` and
`agent_name` unchanged and refreshes `updated_at` to the call time, both in
the returned config and in the persisted row (which equals the returned
config). -/
theorem C8_upsert_timestamps (db : DB) (A : String)
    (e c : Option Bool) (now : Nat) (ex : SharedFolderConfig)
    (h : get_shared_folder_config db A = some ex) :
    (upsert_shared_folder_config db A e c now).2.created_at
        = ex.created_at ∧
    (upsert_shared_folder_config db A e c now).2.updated_at = now ∧
    (upsert_shared_folder_config db A e c now).2.agent_name
        = ex.agent_name ∧
    get_shared_folder_config (upsert_shared_folder_config db A e c now).1 A
        = some (upsert_shared_folder_config db A e c now).2 := by
  unfold get_shared_folder_config at h
  have h1 := List.find?_some h
  have hname : ex.agent_name = A := eq_of_beq h1
  have h2 := upsert_existing db A e c now ex h
  refine ⟨?_, ?_, ?_, get_after_upsert db A e c now⟩
  · rw [h2]
  · rw [h2]
  · rw [h2]
    exact hname.symm

/-- Witness for C8: upsert on the existing row of beta keeps its creation
time and refreshes its update time. -/
theorem C8_witness :
    (upsert_shared_folder_config exampleDB "beta"
        none (some false) 9).2.created_at = rowBeta.created_at ∧
    (upsert_shared_folder_config exampleDB "beta"
        none (some false) 9).2.updated_at = 9 ∧
    (upsert_shared_folder_config exampleDB "beta"
        none (some false) 9).2.agent_name = rowBeta.agent_name ∧
    get_shared_folder_config (upsert_shared_folder_config exampleDB "beta"
        none (some false) 9).1 "beta"
      = some (upsert_shared_folder_config exampleDB "beta"
          none (some false) 9).2 :=
  C8_upsert_timestamps exampleDB "beta" none (some false) 9 rowBeta rfl

/-- Counterexample to C4 as stated: with two exposing agents `alpha` and
`gamma` and a permission collaborator whose lookup against `alpha` raises,
the claim predicts that `alpha` is excluded and the remaining candidate
still returned (`Except.ok ["gamma"]`); the code instead propagates the
exception, aborting the whole list operation. -/
theorem C4_counterexample :
    get_available_shared_foldersE failDB failPermE "beta"
        = Except.error "permission lookup failed" ∧
    get_available_shared_foldersE failDB failPermE "beta"
        ≠ Except.ok ["gamma"] := by
  refine ⟨rfl, ?_⟩
  intro h
  rw [show get_available_shared_foldersE failDB failPermE "beta"
      = Except.error "permission lookup failed" from rfl] at h
  exact Except.noConfusion h

/-- C4 as amended: when a permission lookup raises during
`get_available_shared_folders` or `get_consuming_agents`, the exception
propagates and the whole enclosing list operation fails (no remaining
candidates are returned); a failing candidate is never defaulted to
allowed.  When no lookup fails, the fallible runs agree with the pure
resolvers. -/
theorem C4_permission_failure_aborts (db : DB)
    (permE : String → String → Except String Bool) (A S : String) :
    (∀ perm : String → String → Bool,
      (∀ x y, permE x y = Except.ok (perm x y)) →
      get_available_shared_foldersE db permE A
          = Except.ok (get_available_shared_folders db perm A) ∧
      get_consuming_agentsE db permE S
          = Except.ok (get_consuming_agents db perm S)) ∧
    (∀ b e, b ∈ get_agents_exposing_folders db → b ≠ A →
      permE A b = Except.error e →
      ∃ e2, get_available_shared_foldersE db permE A
          = Except.error e2) ∧
    (∀ c e, c ∈ consuming_candidates db S →
      permE c S = Except.error e →
      ∃ e2, get_consuming_agentsE db permE S = Except.error e2) := by
  refine ⟨?_, ?_, ?_⟩
  · intro perm hag
    constructor
    · rw [get_availableE_eq,
        permStepE_foldlM_ok (fun a => permE A a) (fun a => perm A a)
          (fun a => hag A a),
        foldl_filter_append, get_available_eq_filter]
      rw [List.filter_filter]
      simp only [Except.ok.injEq]
      exact List.filter_congr (fun a _ => Bool.and_comm _ _)
    · rw [get_consumingE_eq,
        permStepE_foldlM_ok (fun a => permE a S) (fun a => perm a S)
          (fun a => hag a S),
        foldl_filter_append, get_consuming_eq_filter]
      simp
  · intro b e hb hne hfail
    rw [get_availableE_eq]
    refine permStepE_foldlM_error (fun a => permE A a) _ [] b e ?_ hfail
    rw [List.mem_filter]
    exact ⟨hb, bne_iff_ne.mpr hne⟩
  · intro c e hc hfail
    rw [get_consumingE_eq]
    exact permStepE_foldlM_error (fun a => permE a S) _ [] c e hc hfail

/-- Witness for the amended C4: at the concrete failing scenario the
available-mounts query aborts with an error. -/
theorem C4_witness :
    ∃ e2, get_available_shared_foldersE failDB failPermE "beta"
        = Except.error e2 :=
  (C4_permission_failure_aborts failDB failPermE "beta" "beta").2.1
    "alpha" "permission lookup failed"
    (by show "alpha" ∈ ["alpha", "gamma"]; decide) (by decide) rfl
